import Mathlib

/-!
A shallow embedding of `gum.go` (gum-go).

The launcher takes one URI, picks the matching protocol definition of the
configuration, derives template variables from the URI, optionally assembles a
delimited key/value file, renders the command template array and starts the
command.

Everything the Go program obtains from its standard library or from the
operating system and that is not pure string manipulation (reading files, JSON
decoding, URL parsing, Unicode case folding, base64, `text/template`, map
iteration order, process start) is a field of `Env`.  Pure string helpers
(`strings.Contains`, `strings.Join`, `strings.Split`, `net.SplitHostPort`) are
modelled directly.  Go strings are modelled by Lean strings, that is, by valid
UTF-8 texts, on which searching by byte and by character cut the same pieces.
Go `panic`s and early `return`s of `program` are values of `Halt`.
-/

namespace Gum

set_option linter.dupNamespace false

/-! ## Data model (gum.go, lines 26-58) -/

/-- Go struct `Protocol`. -/
structure Protocol where
  Protocol : String
  CMD : List String
  OutputFile : String
  BaseFile : String
  FileDelimeter : String
  HostAddressFileLine : List String
  UsernameFileLine : List String
  AdditionalFileLines : List (List String)
deriving DecidableEq, Repr

/-- Zero value of `Protocol` (`var pConfig Protocol`). -/
def zeroProtocol : Protocol := ⟨"", [], "", "", "", [], [], []⟩

/-- Go struct `AppConfig`. -/
structure AppConfig where
  Debug : Bool
  Protocols : List Protocol
deriving DecidableEq, Repr

/-- Go type `FragmentData` (`[][]string`). -/
abbrev FragmentData := List (List String)

/-- The fields of `*url.URL` the program reads.  `User` is `none` when
`u.User == nil`, otherwise `u.User.String()`; `Query` is `u.Query()`. -/
structure URL where
  Scheme : String
  User : Option String
  Host : String
  Path : String
  Fragment : String
  Query : List (String × List String)
deriving DecidableEq, Repr

/-- Go struct `TemplateVariables`. -/
structure TemplateVariables where
  FullURL : String
  Protocol : String
  HostAddress : String
  HostPort : String
  Username : String
  Path : String
  OutputFile : String
  Query : List (String × List String)
deriving DecidableEq, Repr

/-- Go `map[string][]string`: an association list whose keys are kept distinct
by `mapSet`. -/
abbrev FileContents := List (String × List String)

/-- The map assignment `m[k] = v`: the entry of `k`, if any, is replaced. -/
def mapSet (m : FileContents) (k : String) (v : List String) : FileContents :=
  (k, v) :: m.filter (fun e => decide (e.1 ≠ k))

/-- The map read `m[k]` with presence flag. -/
def mapGet (m : FileContents) (k : String) : Option (List String) :=
  (m.find? (fun e => decide (e.1 = k))).map (fun e => e.2)

/-- The keys of a map. -/
def mapKeys (m : FileContents) : List String := m.map (fun e => e.1)

/-! ## Halting and effects -/

deriving instance DecidableEq for Except

/-- The ways a run stops before `program` reaches its last line. -/
inductive Halt where
  /-- An early `return` of `program`; the payload is what was printed last. -/
  | returned (messages : List String)
  /-- The `panic(eErr)` of `handleError` in debug mode, with its messages. -/
  | panicked (messages : List String)
  /-- The Go runtime panic of an index or slice expression out of range. -/
  | outOfRange
deriving DecidableEq, Repr

/-- Observable side effects of a run on the file system and process table. -/
inductive Effect where
  /-- `os.Create` succeeded: the file exists and is empty. -/
  | created (path : String)
  /-- `file.WriteString` succeeded with this text. -/
  | wrote (path : String) (contents : String)
  /-- `cmd.Start` was called on this executable and these arguments. -/
  | started (name : String) (args : List String)
deriving DecidableEq, Repr

/-- How a run ended. -/
inductive Outcome where
  | finished
  | halted (h : Halt)
deriving DecidableEq, Repr

/-- Result of a run: the effects in order, and how it ended. -/
structure RunResult where
  effects : List Effect
  outcome : Outcome
deriving DecidableEq, Repr

/-- External collaborators of the program.  An error is `Except.error`, or
`some` for calls that return only an error. -/
structure Env where
  /-- The global `sConfigFilePath` after `setConfigFilePath`. -/
  sConfigFilePath : String
  /-- Function `os.ReadFile`. -/
  readFile : String → Except String String
  /-- Function `json.Unmarshal` into an `AppConfig`. -/
  jsonUnmarshal : String → Except String AppConfig
  /-- Function `url.Parse`. -/
  urlParse : String → Except String URL
  /-- Function `strings.EqualFold`. -/
  equalFold : String → String → Bool
  /-- Function `url.QueryUnescape`. -/
  queryUnescape : String → Except String String
  /-- Function `base64.StdEncoding.DecodeString`. -/
  base64Decode : String → Except String String
  /-- Function `os.Open` followed by the tokens `bufio.Scanner` yields. -/
  openLines : String → Except String (List String)
  /-- Function `template.New(..).Parse`: the error, if any. -/
  templateParse : String → Option String
  /-- Method `Execute` of the parsed template of the given text. -/
  templateExecute : String → TemplateVariables → Except String String
  /-- Function `os.Create`: the error, if any. -/
  createFile : String → Option String
  /-- Method `WriteString` of the created file: the error, if any. -/
  writeString : String → String → Option String
  /-- The order in which `range` visits the entries of a map. -/
  rangeOrder : FileContents → FileContents
  /-- Method `Start` of `exec.Command(name, args...)`: the error, if any. -/
  cmdStart : String → List String → Option String

/-! ## Pure string helpers of the Go standard library -/

/-- Function `strings.Contains(s, ":")` and friends, for a single character. -/
def containsChar (s : String) (c : Char) : Bool := s.toList.contains c

/-- Function `strings.Join`. -/
def Join : List String → String → String
  | [], _ => ""
  | a :: rest, sep => rest.foldl (fun b s => b ++ sep ++ s) a

/-- Whether `p` starts `s`. -/
def startsWith : List Char → List Char → Bool
  | [], _ => true
  | _ :: _, [] => false
  | a :: p, b :: s => a == b && startsWith p s

/-- Function `strings.Index`: the first position at which `sep` occurs in `s`. -/
def Index : List Char → List Char → Option Nat
  | [], sep => if startsWith sep [] then some 0 else none
  | c :: s, sep =>
    if startsWith sep (c :: s) then some 0 else (Index s sep).map (fun i => i + 1)

/-- Function `strings.Count` for a non-empty `sep`, the loop bounded by `fuel`. -/
def countLoop (sep : List Char) : Nat → List Char → Nat
  | 0, _ => 0
  | fuel + 1, s =>
    match Index s sep with
    | none => 0
    | some i => countLoop sep fuel (s.drop (i + sep.length)) + 1

/-- The loop of `genSplit`: at most `n` cuts. -/
def splitLoop (sep : List Char) : Nat → List Char → List (List Char)
  | 0, s => [s]
  | n + 1, s =>
    match Index s sep with
    | none => [s]
    | some m => s.take m :: splitLoop sep n (s.drop (m + sep.length))

/-- Function `strings.Split`.  An empty separator explodes the string into its
characters (so the empty string gives the empty list); otherwise the string is
cut at each of the `strings.Count(s, sep)` non-overlapping occurrences. -/
def Split (s sep : String) : List String :=
  if sep = "" then s.toList.map (fun c => String.mk [c])
  else (splitLoop sep.toList (countLoop sep.toList s.length s.toList) s.toList).map String.mk

/-- Function `bytealg.LastIndexByteString`. -/
def lastIndexByte (c : Char) : List Char → Option Nat
  | [] => none
  | x :: t =>
    match lastIndexByte c t with
    | some i => some (i + 1)
    | none => if x = c then some 0 else none

/-- Function `bytealg.IndexByteString`. -/
def indexByte (c : Char) : List Char → Option Nat
  | [] => none
  | x :: t => if x = c then some 0 else (indexByte c t).map (fun i => i + 1)

/-- The last part of `net.SplitHostPort`, after `host`, `j` and `k` are set:
stray brackets are rejected and the port is what follows the last colon. -/
def splitHostPortTail (hp : List Char) (i : Nat) (host : List Char) (j k : Nat) :
    Except String (List Char × List Char) :=
  if (indexByte '[' (hp.drop j)).isSome then .error "unexpected [ in address"
  else if (indexByte ']' (hp.drop k)).isSome then .error "unexpected ] in address"
  else .ok (host, hp.drop (i + 1))

/-- The body of `net.SplitHostPort` on the characters of `hostport`.  Positions
are counted in characters; the three characters searched for are ASCII, so the
pieces cut are those of the byte positions of the Go code. -/
def splitHostPortChars (hp : List Char) : Except String (List Char × List Char) :=
  match lastIndexByte ':' hp with
  | none => .error "missing port in address"
  | some i =>
    if hp.head? = some '[' then
      match indexByte ']' hp with
      | none => .error "missing ] in address"
      | some e =>
        if e + 1 = hp.length then .error "missing port in address"
        else if e + 1 = i then splitHostPortTail hp i ((hp.take e).drop 1) 1 (e + 1)
        else if hp.get? (e + 1) = some ':' then .error "too many colons in address"
        else .error "missing port in address"
    else
      if (indexByte ':' (hp.take i)).isSome then .error "too many colons in address"
      else splitHostPortTail hp i (hp.take i) 0 0

/-- Function `net.SplitHostPort`. -/
def SplitHostPort (hostport : String) : Except String (String × String) :=
  match splitHostPortChars hostport.toList with
  | .error e => .error e
  | .ok (host, port) => .ok (String.mk host, String.mk port)

/-! ## The program (gum.go, lines 131-431) -/

/-- The error of a Go call result, `none` for `nil`. -/
def errOf {α : Type} : Except String α → Option String
  | .error e => some e
  | .ok _ => none

/-- The value of a Go call result, the zero value `z` on error. -/
def valOf {α : Type} (z : α) : Except String α → α
  | .error _ => z
  | .ok a => a

/-- Go `handleError` (lines 318-328): on an error the messages are printed and,
in debug mode, the error is raised as a panic; otherwise `true` is returned. -/
def handleError (bDebug : Bool) (eErr : Option String) (messages : List String) :
    Except Halt Bool :=
  match eErr with
  | some _ => if bDebug then .error (.panicked messages) else .ok true
  | none => .ok false

/-- Go `loadConfig` (lines 336-353). -/
def loadConfig (env : Env) (bDebug : Bool) (filepath : String) :
    Except Halt (Bool × AppConfig) := do
  let result : AppConfig := ⟨false, []⟩
  let filecontents := env.readFile filepath
  if (← handleError bDebug (errOf filecontents) ["Could not load:", filepath]) then
    return (false, result)
  let parsed := env.jsonUnmarshal (valOf "" filecontents)
  if (← handleError bDebug (errOf parsed) ["Could not process:", filepath]) then
    return (false, valOf result parsed)
  return (true, valOf result parsed)

/-- The assignment `m[row[0]] = row[1:]`, which panics on an empty `row`. -/
def setRow (m : FileContents) (row : List String) : Except Halt FileContents :=
  match row with
  | [] => .error .outOfRange
  | k :: vs => .ok (mapSet m k vs)

/-- The scanner loop of `loadBaseFile` (lines 367-370). -/
def scanLoop (sDilimeter : String) : List String → FileContents → Except Halt FileContents
  | [], result => .ok result
  | line :: rest, result =>
    match setRow result (Split line sDilimeter) with
    | .error h => .error h
    | .ok result' => scanLoop sDilimeter rest result'

/-- Go `loadBaseFile` (lines 355-373). -/
def loadBaseFile (env : Env) (bDebug : Bool) (sFilePath sDilimeter : String) :
    Except Halt (Bool × FileContents) := do
  let result : FileContents := []
  let file := env.openLines sFilePath
  if (← handleError bDebug (errOf file) ["Could not load:", sFilePath]) then
    return (false, result)
  let result' ← scanLoop sDilimeter (valOf [] file) result
  return (true, result')

/-- Go `parseTemplateString` (lines 375-393). -/
def parseTemplateString (env : Env) (bDebug : Bool) (templateString : String)
    (templateData : TemplateVariables) : Except Halt (Bool × String) := do
  if (← handleError bDebug (env.templateParse templateString)
      ["Could parse template string:", templateString]) then
    return (false, templateString)
  let executed := env.templateExecute templateString templateData
  if (← handleError bDebug (errOf executed)
      ["Could execute template string:", templateString]) then
    return (false, templateString)
  return (true, valOf "" executed)

/-- The loop of `parseTemplateStringArray` (lines 398-404) from the current
index on: the remaining elements and the flag so far. -/
def parseLoop (env : Env) (bDebug : Bool) (templateData : TemplateVariables) :
    List String → Bool → Except Halt (Bool × List String)
  | [], bNoFailure => .ok (bNoFailure, [])
  | t :: rest, bNoFailure =>
    match parseTemplateString env bDebug t templateData with
    | .error h => .error h
    | .ok (bSuccess, s) =>
      match parseLoop env bDebug templateData rest (if !bSuccess then false else bNoFailure) with
      | .error h => .error h
      | .ok (b, rest') => .ok (b, s :: rest')

/-- Go `parseTemplateStringArray` (lines 395-407). -/
def parseTemplateStringArray (env : Env) (bDebug : Bool) (templateStrings : List String)
    (templateData : TemplateVariables) : Except Halt (Bool × List String) :=
  parseLoop env bDebug templateData templateStrings true

/-- The loop body of `createOutputFile` (lines 420-424) over the visited
entries. -/
def outputText (sArrayDelimeter : String) (visited : FileContents) : String :=
  visited.foldl
    (fun sFileContents e => sFileContents ++ Join (e.1 :: e.2) sArrayDelimeter ++ "\n") ""

/-- Go `createOutputFile` (lines 409-431), with its effects. -/
def createOutputFile (env : Env) (bDebug : Bool) (sFileOutputPath sArrayDelimeter : String)
    (mFileContents : FileContents) : List Effect × Except Halt Bool :=
  match handleError bDebug (env.createFile sFileOutputPath)
      ["Could not create:", sFileOutputPath] with
  | .error h => ([], .error h)
  | .ok true => ([], .ok false)
  | .ok false =>
    let sFileContents := outputText sArrayDelimeter (env.rangeOrder mFileContents)
    match handleError bDebug (env.writeString sFileOutputPath sFileContents)
        ["Could not write to:", sFileOutputPath] with
    | .error h => ([.created sFileOutputPath], .error h)
    | .ok true => ([.created sFileOutputPath], .ok false)
    | .ok false =>
      ([.created sFileOutputPath, .wrote sFileOutputPath sFileContents], .ok true)

/-- The matching loop of `program` (lines 175-182). -/
def matchProtocol (env : Env) (protocols : List Protocol) (scheme : String) : Protocol :=
  protocols.foldl
    (fun pConfig sProtocol =>
      if env.equalFold sProtocol.Protocol scheme then sProtocol else pConfig)
    zeroProtocol

/-- Host and port of `program` (lines 190-198). -/
def hostPort (bDebug : Bool) (host : String) : Except Halt (String × String) :=
  if containsChar host ':' then do
    let r := SplitHostPort host
    if (← handleError bDebug (errOf r) ["Could not parse host:", host]) then
      throw (.returned ["Could not parse host:", host])
    return valOf ("", "") r
  else .ok (host, "")

/-- Username of `program` (lines 200-206). -/
def username (env : Env) (bDebug : Bool) (user : Option String) : Except Halt String :=
  match user with
  | none => .ok ""
  | some s => do
    let r := env.queryUnescape s
    if (← handleError bDebug (errOf r) ["Could not parse username:", s]) then
      throw (.returned ["Could not parse username:", s])
    return valOf "" r

/-- The fragment decoding step of `program` (lines 244-257): the rows
`fdJSON` the merge loop then ranges over.  The variable is declared and never
assigned, and the second `handleError` re-examines the base64 error. -/
def decodeFragment (env : Env) (bDebug : Bool) (sFragment : String) :
    Except Halt FragmentData := do
  let baDecoded := env.base64Decode sFragment
  let eErr := errOf baDecoded
  if (← handleError bDebug eErr ["Could not base64 decode fragment:", sFragment]) then
    throw (.returned ["Could not base64 decode fragment:", sFragment])
  let sDecoded := valOf "" baDecoded
  let fdJSON : FragmentData := []
  if (← handleError bDebug eErr ["Could not json decode:", sDecoded]) then
    throw (.returned ["Could not json decode:", sDecoded])
  return fdJSON

/-- The merge loop over rows, `m[row[0]] = row[1:]` for each (lines 260-262). -/
def mergeRows : List (List String) → FileContents → Except Halt FileContents
  | [], m => .ok m
  | row :: rest, m =>
    match setRow m row with
    | .error h => .error h
    | .ok m' => mergeRows rest m'

/-- The fragment block of `program` (lines 240-263). -/
def mergeFragment (env : Env) (bDebug : Bool) (fragment : String) (m : FileContents) :
    Except Halt FileContents :=
  if fragment ≠ "" then
    match decodeFragment env bDebug fragment with
    | .error h => .error h
    | .ok fdJSON => mergeRows fdJSON m
  else .ok m

/-- One rendered line merged into the map (lines 270-275, 280-285, 289-294):
the array is rendered, the map is assigned, then the flag is examined. -/
def mergeLine (env : Env) (bDebug : Bool) (tvData : TemplateVariables)
    (line : List String) (m : FileContents) : Except Halt FileContents :=
  match parseTemplateStringArray env bDebug line tvData with
  | .error h => .error h
  | .ok (bCont, aStrings) =>
    match setRow m aStrings with
    | .error h => .error h
    | .ok m' => if !bCont then .error (.returned ["Exiting early"]) else .ok m'

/-- The loop over the additional lines (lines 266-277). -/
def mergeAdditional (env : Env) (bDebug : Bool) (tvData : TemplateVariables) :
    List (List String) → FileContents → Except Halt FileContents
  | [], m => .ok m
  | line :: rest, m =>
    match mergeLine env bDebug tvData line m with
    | .error h => .error h
    | .ok m' => mergeAdditional env bDebug tvData rest m'

/-- A line that is merged only when configured (lines 278 and 287). -/
def mergeOptionalLine (env : Env) (bDebug : Bool) (tvData : TemplateVariables)
    (line : List String) (m : FileContents) : Except Halt FileContents :=
  if line.length > 0 then mergeLine env bDebug tvData line m else .ok m

/-- The base file block of `program` (lines 227-237). -/
def baseContents (env : Env) (bDebug : Bool) (pConfig : Protocol) :
    Except Halt FileContents :=
  if pConfig.BaseFile ≠ "" then
    match loadBaseFile env bDebug pConfig.BaseFile pConfig.FileDelimeter with
    | .error h => .error h
    | .ok (bCont, m) => if !bCont then .error (.returned ["Exiting early"]) else .ok m
  else .ok []

/-- The field merge of `program` (lines 226-295): the map handed to
`createOutputFile`. -/
def buildFileContents (env : Env) (bDebug : Bool) (pConfig : Protocol)
    (tvData : TemplateVariables) (fragment : String) : Except Halt FileContents := do
  let m0 ← baseContents env bDebug pConfig
  let m1 ← mergeFragment env bDebug fragment m0
  let m2 ← mergeAdditional env bDebug tvData pConfig.AdditionalFileLines m1
  let m3 ← mergeOptionalLine env bDebug tvData pConfig.HostAddressFileLine m2
  mergeOptionalLine env bDebug tvData pConfig.UsernameFileLine m3

/-- The command block of `program` (lines 301-315). -/
def runCommand (env : Env) (bDebug : Bool) (pConfig : Protocol)
    (tvData : TemplateVariables) : RunResult :=
  match parseTemplateStringArray env bDebug pConfig.CMD tvData with
  | .error h => ⟨[], .halted h⟩
  | .ok (bCont, cmd) =>
    if !bCont then ⟨[], .halted (.returned ["Exiting early"])⟩
    else
      match cmd with
      | [] => ⟨[], .halted .outOfRange⟩
      | name :: aArgs =>
        match handleError bDebug (env.cmdStart name aArgs) ["Could not start:", name] with
        | .error h => ⟨[], .halted h⟩
        | .ok true => ⟨[], .halted (.returned ["Could not start:", name])⟩
        | .ok false => ⟨[.started name aArgs], .finished⟩

/-- The output block of `program` followed by the command block (lines
222-315).  The result of `createOutputFile` is not examined. -/
def runOutputAndCommand (env : Env) (bDebug : Bool) (pConfig : Protocol)
    (tvData : TemplateVariables) (fragment : String) : RunResult :=
  if pConfig.OutputFile ≠ "" then
    match buildFileContents env bDebug pConfig tvData fragment with
    | .error h => ⟨[], .halted h⟩
    | .ok mFileContents =>
      match createOutputFile env bDebug pConfig.OutputFile pConfig.FileDelimeter
          mFileContents with
      | (effects, .error h) => ⟨effects, .halted h⟩
      | (effects, .ok _) =>
        let r := runCommand env bDebug pConfig tvData
        ⟨effects ++ r.effects, r.outcome⟩
  else runCommand env bDebug pConfig tvData

/-- The run from the parsed URL on (lines 174-315). -/
def runParsed (env : Env) (acData : AppConfig) (sURLPath : String) (u : URL) : RunResult :=
  let bDebug := acData.Debug
  let pConfig := matchProtocol env acData.Protocols u.Scheme
  if pConfig.Protocol = "" then
    ⟨[], .halted (.returned ["App config does not support:", u.Scheme])⟩
  else
    match hostPort bDebug u.Host with
    | .error h => ⟨[], .halted h⟩
    | .ok (sHostAddr, sHostPort) =>
      match username env bDebug u.User with
      | .error h => ⟨[], .halted h⟩
      | .ok sUsername =>
        let tvData : TemplateVariables :=
          ⟨sURLPath, pConfig.Protocol, sHostAddr, sHostPort, sUsername, u.Path,
            pConfig.OutputFile, u.Query⟩
        runOutputAndCommand env bDebug pConfig tvData u.Fragment

/-- Go `program` (lines 131-316).  `osArgs` is `os.Args`; the global `bDebug`
is `true` until the configuration is loaded. -/
def program (env : Env) (osArgs : List String) : RunResult :=
  match osArgs with
  | [_, sURLPath] =>
    match loadConfig env true env.sConfigFilePath with
    | .error h => ⟨[], .halted h⟩
    | .ok (bCont, acData) =>
      if !bCont then ⟨[], .halted (.returned ["Exiting early"])⟩
      else
        let u := env.urlParse sURLPath
        match handleError acData.Debug (errOf u) ["Could not parse URL:", sURLPath] with
        | .error h => ⟨[], .halted h⟩
        | .ok true => ⟨[], .halted (.returned ["Could not parse URL:", sURLPath])⟩
        | .ok false =>
          match u with
          | .error _ => ⟨[], .halted (.returned ["Could not parse URL:", sURLPath])⟩
          | .ok u => runParsed env acData sURLPath u
  | _ => ⟨[], .halted (.returned ["Too many arguments."])⟩

/-! ## A concrete environment for running the model -/

/-- ASCII lower-casing of one character. -/
def asciiLower (c : Char) : Char :=
  if 'A' ≤ c ∧ c ≤ 'Z' then Char.ofNat (c.toNat + 32) else c

/-- Function `strings.EqualFold` on ASCII strings: equality up to the case of
the letters `A`-`Z`.  Characters outside ASCII are compared as they are, so
this stands for `strings.EqualFold` on ASCII inputs only. -/
def asciiEqualFold (s t : String) : Bool :=
  s.toList.map asciiLower == t.toList.map asciiLower

/-- What `url.Parse` returns on the URIs used in the concrete runs below (the
scheme is lower-cased by `url.Parse`, brackets stay in `Host`).  Other inputs
are not covered and are reported as errors. -/
def demoParse (raw : String) : Except String URL :=
  if raw = "demo://myhost/path" then .ok ⟨"demo", none, "myhost", "/path", "", []⟩
  else if raw = "demo://myhost/path#W1siSyIsImMiXV0=" then
    .ok ⟨"demo", none, "myhost", "/path", "W1siSyIsImMiXV0=", []⟩
  else if raw = "demo://[::1]/path" then .ok ⟨"demo", none, "[::1]", "/path", "", []⟩
  else if raw = "HTTPS://myhost/path" then .ok ⟨"https", none, "myhost", "/path", "", []⟩
  else .error "not covered"

/-- What `base64.StdEncoding.DecodeString` returns on the two fragments used
below: the JSON texts of the row lists `K,c` and `K,v1,v2`. -/
def demoBase64 (s : String) : Except String String :=
  if s = "W1siSyIsImMiXV0=" then .ok "[[\"K\",\"c\"]]"
  else if s = "W1siSyIsInYxIiwidjIiXV0=" then .ok "[[\"K\",\"v1\",\"v2\"]]"
  else .error "not covered"

/-- What `text/template` does with the templates used below: an unclosed
action does not parse. -/
def demoTemplateParse (t : String) : Option String :=
  if t = "\x7b\x7b" then some "unclosed action" else none

/-- What `text/template` does with the templates used below: text without
braces renders to itself, a reference to a field of `TemplateVariables` to the
value of the field, a reference to a field that does not exist fails. -/
def demoTemplateExecute (t : String) (tv : TemplateVariables) : Except String String :=
  if t = "\x7b\x7b.HostAddress\x7d\x7d" then .ok tv.HostAddress
  else if t = "\x7b\x7b.Username\x7d\x7d" then .ok tv.Username
  else if containsChar t '\x7b' then .error "cannot evaluate"
  else .ok t

/-- A concrete environment: the configuration file decodes to `acData`, the
base file yields `baseFile`, `os.Create` returns `createErr`; writing and
starting succeed and `range` visits the entries in stored order. -/
def demoEnv (acData : AppConfig) (baseFile : Except String (List String))
    (createErr : Option String) : Env where
  sConfigFilePath := "configuration.json"
  readFile := fun _ => .ok ""
  jsonUnmarshal := fun _ => .ok acData
  urlParse := demoParse
  equalFold := asciiEqualFold
  queryUnescape := fun s =>
    if containsChar s '%' || containsChar s '+' then .error "not covered" else .ok s
  base64Decode := demoBase64
  openLines := fun _ => baseFile
  templateParse := demoTemplateParse
  templateExecute := demoTemplateExecute
  createFile := fun _ => createErr
  writeString := fun _ _ => none
  rangeOrder := fun m => m
  cmdStart := fun _ _ => none

/-- The protocol `demo` of the end-to-end example, with the given output file,
base file and additional lines. -/
def demoProtocol (outputFile baseFile : String) (additional : List (List String)) :
    Protocol :=
  ⟨"demo", ["echo", "\x7b\x7b.HostAddress\x7d\x7d"], outputFile, baseFile, "=", [], [],
    additional⟩

/-- Template variables of the URI `demo://myhost/path`. -/
def demoVariables : TemplateVariables :=
  ⟨"demo://myhost/path", "demo", "myhost", "", "", "/path", "", []⟩

/-! ## Specification-side definitions -/

/-- What one template renders to; `none` when parsing or executing it fails. -/
def renderOne (env : Env) (tv : TemplateVariables) (t : String) : Option String :=
  match env.templateParse t with
  | some _ => none
  | none =>
    match env.templateExecute t tv with
    | .error _ => none
    | .ok s => some s

/-- The rendering of a line template array when every element renders (an
element that does not render stays as given). -/
def renderedLine (env : Env) (tv : TemplateVariables) (line : List String) : List String :=
  line.map (fun t => (renderOne env tv t).getD t)

/-- The value list a row writes for key `K`: the remainder of the row when its
first element is `K`. -/
def rowValue (row : List String) (K : String) : Option (List String) :=
  match row with
  | [] => none
  | k :: vs => if k = K then some vs else none

/-- Last layer wins: the value list of `K` after the rows are layered, in
order, over a previous value `prev`: what the last row defining `K` writes,
and `prev` when no row defines `K`. -/
def lastLayerValue (prev : Option (List String)) (rows : List (List String)) (K : String) :
    Option (List String) :=
  (rows.reverse.findSome? (fun row => rowValue row K)).or prev

/-- Concatenation of a list of texts. -/
def concatAll : List String → String
  | [] => ""
  | s :: rest => s ++ concatAll rest

/-- One line of the output file: the key, then each value preceded by the
delimiter, then a newline. -/
def outputLine (d k : String) (vs : List String) : String :=
  k ++ concatAll (vs.map (fun v => d ++ v)) ++ "\n"

/-- The form `host:port` of an authority host string `h`: `a`, a colon, `p`,
with no colon and no bracket in `a` and none in `p`. -/
abbrev plainHostPort (h a p : String) : Prop :=
  h = a ++ ":" ++ p ∧ containsChar a ':' = false ∧ containsChar a '[' = false ∧
    containsChar a ']' = false ∧ containsChar p ':' = false ∧ containsChar p '[' = false ∧
    containsChar p ']' = false

/-- The form `[host]:port` of an authority host string `h`: `a` between
brackets, a colon, `p`, with no bracket in `a` (colons are allowed there) and
no colon and no bracket in `p`. -/
abbrev bracketedHostPort (h a p : String) : Prop :=
  h = "[" ++ a ++ "]:" ++ p ∧ containsChar a '[' = false ∧ containsChar a ']' = false ∧
    containsChar p ':' = false ∧ containsChar p '[' = false ∧ containsChar p ']' = false

/-! ## Protocol matching -/

theorem matchLoop_no_match (env : Env) (s : String) (ps : List Protocol) (init : Protocol)
    (h : ∀ q ∈ ps, env.equalFold q.Protocol s = false) :
    ps.foldl (fun pConfig sProtocol =>
      if env.equalFold sProtocol.Protocol s then sProtocol else pConfig) init = init := by
  induction ps generalizing init with
  | nil => rfl
  | cons q qs ih =>
    have hq : env.equalFold q.Protocol s = false := h q (List.mem_cons_self q qs)
    simp only [List.foldl_cons, hq]
    exact ih init (fun r hr => h r (List.mem_cons_of_mem q hr))

theorem matchProtocol_none (env : Env) (s : String) (ps : List Protocol)
    (h : ∀ q ∈ ps, env.equalFold q.Protocol s = false) :
    matchProtocol env ps s = zeroProtocol :=
  matchLoop_no_match env s ps zeroProtocol h

/-- C4: the matching loop selects the last entry, in list order, whose
protocol name equals the scheme under the case-insensitive comparison: an
entry that matches and is followed only by entries that do not match is the
one retained, whatever precedes it. -/
theorem matchProtocol_selects_last_match (env : Env) (pre : List Protocol) (p : Protocol)
    (post : List Protocol) (s : String)
    (hp : env.equalFold p.Protocol s = true)
    (hpost : ∀ q ∈ post, env.equalFold q.Protocol s = false) :
    matchProtocol env (pre ++ p :: post) s = p := by
  unfold matchProtocol
  rw [List.foldl_append, List.foldl_cons]
  simp only [hp, if_true]
  exact matchLoop_no_match env s post p hpost

/-- Witness of C4: scheme `HTTPS` against two entries configured as `https`
around an unrelated one selects the later `https` entry. -/
theorem matchProtocol_selects_last_match_witness :
    asciiEqualFold "https" "HTTPS" = true ∧
    matchProtocol (demoEnv ⟨false, []⟩ (.ok []) none)
      ([⟨"https", ["first"], "", "", "", [], [], []⟩, demoProtocol "" "" []] ++
        ⟨"https", ["second"], "", "", "", [], [], []⟩ :: [demoProtocol "" "" []]) "HTTPS"
      = ⟨"https", ["second"], "", "", "", [], [], []⟩ :=
  ⟨by decide,
   matchProtocol_selects_last_match (demoEnv ⟨false, []⟩ (.ok []) none) _ _ _ "HTTPS"
     (by decide) (by decide)⟩

/-- C5: when the configuration loads, the URI parses and no configured
protocol name equals its scheme under the case-insensitive comparison, the run
returns at the match stage with no effect: no file is created or written and
no process is started. -/
theorem unsupported_protocol_aborts (env : Env) (a0 sURLPath : String) (acData : AppConfig)
    (u : URL)
    (hcfg : loadConfig env true env.sConfigFilePath = .ok (true, acData))
    (hurl : env.urlParse sURLPath = .ok u)
    (hno : ∀ p ∈ acData.Protocols, env.equalFold p.Protocol u.Scheme = false) :
    program env [a0, sURLPath] =
      ⟨[], .halted (.returned ["App config does not support:", u.Scheme])⟩ := by
  have hz := matchProtocol_none env u.Scheme acData.Protocols hno
  simp [program, hcfg, hurl, handleError, errOf, runParsed, hz, zeroProtocol]

/-- Witness of C5: the configuration knows only `demo`, the URI has scheme
`https`. -/
theorem unsupported_protocol_aborts_witness :
    program (demoEnv ⟨false, [demoProtocol "out.txt" "" []]⟩ (.ok []) none)
      ["gum", "HTTPS://myhost/path"] =
      ⟨[], .halted (.returned ["App config does not support:", "https"])⟩ :=
  unsupported_protocol_aborts (demoEnv ⟨false, [demoProtocol "out.txt" "" []]⟩ (.ok []) none)
    "gum" "HTTPS://myhost/path" ⟨false, [demoProtocol "out.txt" "" []]⟩
    ⟨"https", none, "myhost", "/path", "", []⟩ (by decide) (by decide) (by decide)

/-! ## Template rendering -/

theorem parseTemplateString_quiet (env : Env) (tv : TemplateVariables) (t : String) :
    parseTemplateString env false t tv =
      .ok ((renderOne env tv t).isSome, (renderOne env tv t).getD t) := by
  unfold parseTemplateString renderOne handleError
  cases hp : env.templateParse t with
  | some e => rfl
  | none =>
    cases he : env.templateExecute t tv with
    | error e => rfl
    | ok s => rfl

theorem parseTemplateString_debug_ok (env : Env) (tv : TemplateVariables) (t s : String)
    (h : renderOne env tv t = some s) :
    parseTemplateString env true t tv = .ok (true, s) := by
  unfold renderOne at h
  unfold parseTemplateString handleError
  cases hp : env.templateParse t with
  | some e => simp [hp] at h
  | none =>
    cases he : env.templateExecute t tv with
    | error e => simp [hp, he] at h
    | ok r =>
      simp [hp, he] at h
      subst h
      rfl

theorem parseTemplateString_debug_fail (env : Env) (tv : TemplateVariables) (t : String)
    (h : renderOne env tv t = none) :
    ∃ what, parseTemplateString env true t tv = .error (.panicked [what, t]) := by
  unfold renderOne at h
  unfold parseTemplateString handleError
  cases hp : env.templateParse t with
  | some e => exact ⟨_, rfl⟩
  | none =>
    cases he : env.templateExecute t tv with
    | error e => exact ⟨_, rfl⟩
    | ok r => simp [hp, he] at h

theorem parseLoop_quiet (env : Env) (tv : TemplateVariables) (ts : List String) (b : Bool) :
    parseLoop env false tv ts b =
      .ok (b && ts.all (fun t => (renderOne env tv t).isSome),
        ts.map (fun t => (renderOne env tv t).getD t)) := by
  induction ts generalizing b with
  | nil => simp [parseLoop]
  | cons t rest ih =>
    simp only [parseLoop, parseTemplateString_quiet, ih, List.all_cons, List.map_cons]
    cases (renderOne env tv t).isSome <;> cases b <;> simp

theorem parseLoop_debug_ok (env : Env) (tv : TemplateVariables) (ts : List String) (b : Bool)
    (h : ∀ t ∈ ts, (renderOne env tv t).isSome = true) :
    parseLoop env true tv ts b =
      .ok (b, ts.map (fun t => (renderOne env tv t).getD t)) := by
  induction ts generalizing b with
  | nil => simp [parseLoop]
  | cons t rest ih =>
    have ht := h t (List.mem_cons_self t rest)
    obtain ⟨s, hs⟩ := Option.isSome_iff_exists.mp ht
    simp only [parseLoop, parseTemplateString_debug_ok env tv t s hs,
      ih _ (fun r hr => h r (List.mem_cons_of_mem t hr)), List.map_cons, hs]
    simp

theorem parseLoop_debug_fail (env : Env) (tv : TemplateVariables) (pre : List String)
    (t : String) (post : List String) (b : Bool)
    (hpre : ∀ p ∈ pre, (renderOne env tv p).isSome = true)
    (ht : renderOne env tv t = none) :
    ∃ what, parseLoop env true tv (pre ++ t :: post) b = .error (.panicked [what, t]) := by
  induction pre generalizing b with
  | nil =>
    obtain ⟨what, hw⟩ := parseTemplateString_debug_fail env tv t ht
    exact ⟨what, by simp [parseLoop, hw]⟩
  | cons p rest ih =>
    have hp := hpre p (List.mem_cons_self p rest)
    obtain ⟨s, hs⟩ := Option.isSome_iff_exists.mp hp
    obtain ⟨what, hw⟩ := ih (if !true then false else b)
      (fun r hr => hpre r (List.mem_cons_of_mem p hr))
    exact ⟨what, by
      simp only [List.cons_append, parseLoop, parseTemplateString_debug_ok env tv p s hs,
        List.append_eq, hw]⟩

/-- C3, as the code has it: outside debug mode `parseTemplateStringArray`
attempts every element in order and does not stop at a failure: each element
that renders is replaced by its rendering, each element that fails is left as
given, and the flag reports success exactly when every element rendered.  In
debug mode the first failing element raises the panic of `handleError`, so
rendering stops there; when nothing fails the whole array is rendered. -/
theorem parseTemplateStringArray_attempts_all (env : Env) (tv : TemplateVariables)
    (ts : List String) :
    parseTemplateStringArray env false ts tv =
        .ok (ts.all (fun t => (renderOne env tv t).isSome),
          ts.map (fun t => (renderOne env tv t).getD t)) ∧
    (∀ pre t post, ts = pre ++ t :: post →
        (∀ p ∈ pre, (renderOne env tv p).isSome = true) → renderOne env tv t = none →
        ∃ what, parseTemplateStringArray env true ts tv = .error (.panicked [what, t])) ∧
    ((∀ t ∈ ts, (renderOne env tv t).isSome = true) →
        parseTemplateStringArray env true ts tv =
          .ok (true, ts.map (fun t => (renderOne env tv t).getD t))) := by
  refine ⟨?_, ?_, ?_⟩
  · simp [parseTemplateStringArray, parseLoop_quiet]
  · intro pre t post hts hpre ht
    subst hts
    exact parseLoop_debug_fail env tv pre t post true hpre ht
  · intro h
    exact parseLoop_debug_ok env tv ts true h

/-- Counterexample to C3 as stated: outside debug mode, with the second of
three templates failing, the third one is rendered all the same (the host
address stands where the template was). -/
theorem parseTemplateStringArray_renders_after_failure :
    parseTemplateStringArray (demoEnv ⟨false, []⟩ (.ok []) none) false
        ["echo", "\x7b\x7b", "\x7b\x7b.HostAddress\x7d\x7d"] demoVariables =
      .ok (false, ["echo", "\x7b\x7b", "myhost"]) ∧
    renderOne (demoEnv ⟨false, []⟩ (.ok []) none) demoVariables "\x7b\x7b" = none ∧
    "myhost" ≠ "\x7b\x7b.HostAddress\x7d\x7d" := by
  decide

/-- Witness of C3 (amended): the three-element array whose second element
fails, in both modes. -/
theorem parseTemplateStringArray_attempts_all_witness :
    (∀ p ∈ ["echo"], (renderOne (demoEnv ⟨false, []⟩ (.ok []) none) demoVariables p).isSome
        = true) ∧
    renderOne (demoEnv ⟨false, []⟩ (.ok []) none) demoVariables "\x7b\x7b" = none ∧
    ∃ what, parseTemplateStringArray (demoEnv ⟨false, []⟩ (.ok []) none) true
        ["echo", "\x7b\x7b", "\x7b\x7b.HostAddress\x7d\x7d"] demoVariables =
      .error (.panicked [what, "\x7b\x7b"]) :=
  ⟨by decide, by decide,
   (parseTemplateStringArray_attempts_all (demoEnv ⟨false, []⟩ (.ok []) none) demoVariables
      ["echo", "\x7b\x7b", "\x7b\x7b.HostAddress\x7d\x7d"]).2.1
      ["echo"] "\x7b\x7b" ["\x7b\x7b.HostAddress\x7d\x7d"] rfl (by decide) (by decide)⟩

/-! ## Host and port -/

theorem indexByte_drop (c : Char) (s : List Char) (i : Nat) (h : indexByte c s = some i) :
    s.drop i = c :: s.drop (i + 1) := by
  induction s generalizing i with
  | nil => simp [indexByte] at h
  | cons x t ih =>
    simp only [indexByte] at h
    split at h
    · rename_i hx
      cases h
      simp [hx]
    · cases hi : indexByte c t with
      | none => simp [hi] at h
      | some j =>
        simp [hi] at h
        subst h
        simpa using ih j hi

theorem lastIndexByte_drop (c : Char) (s : List Char) (i : Nat)
    (h : lastIndexByte c s = some i) :
    s.drop i = c :: s.drop (i + 1) := by
  induction s generalizing i with
  | nil => simp [lastIndexByte] at h
  | cons x t ih =>
    simp only [lastIndexByte] at h
    cases hi : lastIndexByte c t with
    | some j =>
      simp [hi] at h
      subst h
      simpa using ih j hi
    | none =>
      simp [hi] at h
      obtain ⟨hx, rfl⟩ := h
      simp [hx]

theorem indexByte_eq_none (c : Char) (s : List Char) : indexByte c s = none ↔ c ∉ s := by
  induction s with
  | nil => simp [indexByte]
  | cons x t ih =>
    simp only [indexByte]
    by_cases hx : x = c
    · simp [hx]
    · have hx' : ¬ c = x := fun h => hx h.symm
      simp [hx, hx', ih]

theorem indexByte_isSome (c : Char) (s : List Char) :
    (indexByte c s).isSome = true ↔ c ∈ s := by
  cases h : indexByte c s with
  | none => simpa using (indexByte_eq_none c s).mp h
  | some i =>
    simp only [Option.isSome_some, true_iff]
    by_contra hc
    rw [(indexByte_eq_none c s).mpr hc] at h
    cases h

theorem lastIndexByte_eq_none (c : Char) (s : List Char) :
    lastIndexByte c s = none ↔ c ∉ s := by
  induction s with
  | nil => simp [lastIndexByte]
  | cons x t ih =>
    simp only [lastIndexByte]
    cases hl : lastIndexByte c t with
    | some i =>
      have : c ∈ t := by
        by_contra hc
        rw [ih.mpr hc] at hl
        cases hl
      simp [this]
    | none =>
      have hc := ih.mp hl
      by_cases hx : x = c
      · simp [hx]
      · have hx' : ¬ c = x := fun h => hx h.symm
        simp [hx, hx', hc]

theorem indexByte_take (c : Char) (s : List Char) (e : Nat) (h : indexByte c s = some e) :
    c ∉ s.take e := by
  induction s generalizing e with
  | nil => simp
  | cons x t ih =>
    simp only [indexByte] at h
    split at h
    · cases h
      simp
    · rename_i hx
      cases hi : indexByte c t with
      | none => simp [hi] at h
      | some j =>
        simp [hi] at h
        subst h
        have hx' : ¬ c = x := fun h => hx h.symm
        simpa [hx'] using ih j hi

theorem lastIndexByte_after (c : Char) (s : List Char) (i : Nat)
    (h : lastIndexByte c s = some i) : c ∉ s.drop (i + 1) := by
  induction s generalizing i with
  | nil => simp
  | cons x t ih =>
    simp only [lastIndexByte] at h
    cases hi : lastIndexByte c t with
    | some j =>
      simp [hi] at h
      subst h
      simpa using ih j hi
    | none =>
      simp [hi] at h
      obtain ⟨_, rfl⟩ := h
      simpa using (lastIndexByte_eq_none c t).mp hi

theorem indexByte_first (c : Char) (a p : List Char) (h : c ∉ a) :
    indexByte c (a ++ c :: p) = some a.length := by
  induction a with
  | nil => simp [indexByte]
  | cons x t ih =>
    have hx : ¬ x = c := fun hxc => h (hxc ▸ List.mem_cons_self x t)
    have ht : c ∉ t := fun hc => h (List.mem_cons_of_mem x hc)
    simp [indexByte, hx, ih ht]

theorem lastIndexByte_last (c : Char) (a p : List Char) (h : c ∉ p) :
    lastIndexByte c (a ++ c :: p) = some a.length := by
  induction a with
  | nil => simp [lastIndexByte, (lastIndexByte_eq_none c p).mpr h]
  | cons x t ih => simp [lastIndexByte, ih]

theorem splitHostPortTail_ok (hp : List Char) (i : Nat) (host : List Char) (j k : Nat)
    (a p : List Char) (h : splitHostPortTail hp i host j k = .ok (a, p)) :
    a = host ∧ p = hp.drop (i + 1) ∧ '[' ∉ hp.drop j ∧ ']' ∉ hp.drop k := by
  unfold splitHostPortTail at h
  split at h
  · cases h
  · rename_i h1
    split at h
    · cases h
    · rename_i h2
      cases h
      refine ⟨rfl, rfl, ?_, ?_⟩
      · exact fun hc => h1 ((indexByte_isSome _ _).mpr hc)
      · exact fun hc => h2 ((indexByte_isSome _ _).mpr hc)

theorem splitHostPortTail_eq (hp : List Char) (i : Nat) (host : List Char) (j k : Nat)
    (h1 : '[' ∉ hp.drop j) (h2 : ']' ∉ hp.drop k) :
    splitHostPortTail hp i host j k = .ok (host, hp.drop (i + 1)) := by
  unfold splitHostPortTail
  have e1 : (indexByte '[' (hp.drop j)).isSome = false := by
    simpa using (indexByte_eq_none _ _).mpr h1
  have e2 : (indexByte ']' (hp.drop k)).isSome = false := by
    simpa using (indexByte_eq_none _ _).mpr h2
  simp [e1, e2]

/-- What a successful `net.SplitHostPort` returns: the input is `host:port` or
`[host]:port`, cut at its last colon. -/
theorem splitHostPortChars_sound (hp a p : List Char)
    (hs : splitHostPortChars hp = .ok (a, p)) :
    (hp = a ++ ':' :: p ∧ ':' ∉ a ∧ '[' ∉ a ∧ ']' ∉ a ∧ ':' ∉ p ∧ '[' ∉ p ∧ ']' ∉ p) ∨
    (hp = '[' :: a ++ ']' :: ':' :: p ∧ '[' ∉ a ∧ ']' ∉ a ∧ ':' ∉ p ∧ '[' ∉ p ∧ ']' ∉ p) := by
  unfold splitHostPortChars at hs
  cases hl : lastIndexByte ':' hp with
  | none => simp [hl] at hs
  | some i =>
    simp only [hl] at hs
    have hcut := lastIndexByte_drop ':' hp i hl
    have hafter := lastIndexByte_after ':' hp i hl
    split at hs
    · rename_i hhead
      cases he : indexByte ']' hp with
      | none => simp [he] at hs
      | some e =>
        simp only [he] at hs
        split at hs
        · cases hs
        · split at hs
          · rename_i hei
            obtain ⟨ha, hp', hb1, hb2⟩ := splitHostPortTail_ok _ _ _ _ _ _ _ hs
            right
            have hecut := indexByte_drop ']' hp e he
            have hetake := indexByte_take ']' hp e he
            subst hei
            rw [hcut] at hecut
            rw [hcut] at hb2
            rw [← hp'] at hafter hb2 hecut
            cases hp with
            | nil => simp at hhead
            | cons x t =>
              simp only [List.head?_cons, Option.some.injEq] at hhead
              subst hhead
              cases e with
              | zero => simp [indexByte] at he
              | succ j =>
                have ha' : a = t.take j := by simpa using ha
                have h1 := List.take_append_drop (j + 1) ('[' :: t)
                rw [hecut] at h1
                have ht : t = a ++ ']' :: ':' :: p := by
                  rw [ha']
                  simpa using h1.symm
                have hb1' : '[' ∉ t := by simpa using hb1
                rw [ht] at hb1'
                have hetake' : ']' ∉ a := by
                  rw [ha']
                  simpa using hetake
                refine ⟨by rw [ht]; simp, ?_, hetake', hafter, ?_, ?_⟩
                · exact fun hc => hb1' (List.mem_append_left _ hc)
                · exact fun hc => hb1' (List.mem_append_right _
                    (List.mem_cons_of_mem _ (List.mem_cons_of_mem _ hc)))
                · exact fun hc => hb2 (List.mem_cons_of_mem _ hc)
          · split at hs <;> cases hs
    · split at hs
      · cases hs
      · rename_i hhead hcolon
        obtain ⟨ha, hp', hb1, hb2⟩ := splitHostPortTail_ok _ _ _ _ _ _ _ hs
        left
        have hsplit : hp = a ++ ':' :: p := by
          rw [ha, hp', ← hcut]
          exact (List.take_append_drop i hp).symm
        have hca : ':' ∉ a := by
          rw [ha]
          exact fun hc => hcolon ((indexByte_isSome _ _).mpr hc)
        rw [← hp'] at hafter
        simp only [List.drop_zero] at hb1 hb2
        rw [hsplit] at hb1 hb2
        refine ⟨hsplit, hca, ?_, ?_, hafter, ?_, ?_⟩
        · exact fun hc => hb1 (List.mem_append_left _ hc)
        · exact fun hc => hb2 (List.mem_append_left _ hc)
        · exact fun hc => hb1 (List.mem_append_right _ (List.mem_cons_of_mem _ hc))
        · exact fun hc => hb2 (List.mem_append_right _ (List.mem_cons_of_mem _ hc))

/-- Every `host:port` without stray colons and brackets is split by
`net.SplitHostPort` into `host` and `port`. -/
theorem splitHostPortChars_plain (a p : List Char)
    (h1 : ':' ∉ a) (h2 : '[' ∉ a) (h3 : ']' ∉ a) (h4 : ':' ∉ p) (h5 : '[' ∉ p)
    (h6 : ']' ∉ p) : splitHostPortChars (a ++ ':' :: p) = .ok (a, p) := by
  unfold splitHostPortChars
  rw [lastIndexByte_last ':' a p h4]
  have hhead : ¬ (a ++ ':' :: p).head? = some '[' := by
    cases a with
    | nil => simp
    | cons x t =>
      simp only [List.cons_append, List.head?_cons, Option.some.injEq]
      exact fun hx => h2 (hx ▸ List.mem_cons_self x t)
  have hcolon : (indexByte ':' ((a ++ ':' :: p).take a.length)).isSome = false := by
    simpa using (indexByte_eq_none _ _).mpr h1
  simp only [hhead, if_false, hcolon]
  rw [splitHostPortTail_eq]
  · simp
  · simp [h2, h5]
  · simp [h3, h6]

/-- Every `[host]:port` without stray brackets, and without a colon in the
port, is split by `net.SplitHostPort` into `host` and `port`. -/
theorem splitHostPortChars_bracketed (a p : List Char)
    (h2 : '[' ∉ a) (h3 : ']' ∉ a) (h4 : ':' ∉ p) (h5 : '[' ∉ p) (h6 : ']' ∉ p) :
    splitHostPortChars ('[' :: a ++ ']' :: ':' :: p) = .ok (a, p) := by
  unfold splitHostPortChars
  have hl : lastIndexByte ':' ('[' :: a ++ ']' :: ':' :: p) = some (a.length + 2) := by
    have := lastIndexByte_last ':' ('[' :: a ++ [']']) p h4
    simpa using this
  have he : indexByte ']' ('[' :: a ++ ']' :: ':' :: p) = some (a.length + 1) := by
    have := indexByte_first ']' ('[' :: a) (':' :: p) (by simp [h3])
    simpa using this
  simp only [hl, he]
  have hlen : ¬ (a.length + 1 + 1 = ('[' :: a ++ ']' :: ':' :: p).length) := by
    simp
  simp only [List.cons_append, List.head?_cons, if_true, hlen, if_false]
  rw [splitHostPortTail_eq]
  · simp
  · simp [h2, h5]
  · simp [h6]

theorem containsChar_false (s : String) (c : Char) :
    containsChar s c = false ↔ c ∉ s.toList := by
  simp [containsChar]

theorem SplitHostPort_sound (h a p : String) (hs : SplitHostPort h = .ok (a, p)) :
    plainHostPort h a p ∨ bracketedHostPort h a p := by
  unfold SplitHostPort at hs
  cases hc : splitHostPortChars h.data with
  | error e => simp [hc] at hs
  | ok r =>
    obtain ⟨x, y⟩ := r
    simp [hc] at hs
    obtain ⟨rfl, rfl⟩ := hs
    rcases splitHostPortChars_sound _ _ _ hc with ⟨h0, h1, h2, h3, h4, h5, h6⟩ |
      ⟨h0, h2, h3, h4, h5, h6⟩
    · left
      refine ⟨?_, ?_, ?_, ?_, ?_, ?_, ?_⟩
      · apply String.ext
        simpa [String.data_append] using h0
      all_goals simpa [containsChar]
    · right
      refine ⟨?_, ?_, ?_, ?_, ?_, ?_⟩
      · apply String.ext
        simpa [String.data_append] using h0
      all_goals simpa [containsChar]

theorem SplitHostPort_plain (h a p : String) (hf : plainHostPort h a p) :
    SplitHostPort h = .ok (a, p) := by
  obtain ⟨h0, h1, h2, h3, h4, h5, h6⟩ := hf
  rw [containsChar_false] at h1 h2 h3 h4 h5 h6
  have hd : h.toList = a.toList ++ ':' :: p.toList := by
    rw [h0]
    simp [String.data_append]
  unfold SplitHostPort
  rw [hd, splitHostPortChars_plain _ _ h1 h2 h3 h4 h5 h6]
  rfl

theorem SplitHostPort_bracketed (h a p : String) (hf : bracketedHostPort h a p) :
    SplitHostPort h = .ok (a, p) := by
  obtain ⟨h0, h2, h3, h4, h5, h6⟩ := hf
  rw [containsChar_false] at h2 h3 h4 h5 h6
  have hd : h.toList = '[' :: a.toList ++ ']' :: ':' :: p.toList := by
    rw [h0]
    simp [String.data_append]
  unfold SplitHostPort
  rw [hd, splitHostPortChars_bracketed _ _ h2 h3 h4 h5 h6]
  rfl

theorem hostPort_of_split (bDebug : Bool) (h a p : String)
    (hs : SplitHostPort h = .ok (a, p)) : hostPort bDebug h = .ok (a, p) := by
  have hc : containsChar h ':' = true := by
    rcases SplitHostPort_sound h a p hs with hf | hf
    · rw [hf.1]
      simp [containsChar, String.data_append]
    · rw [hf.1]
      simp [containsChar, String.data_append]
  simp [hostPort, hc, hs, handleError, errOf, valOf, bind, Except.bind, pure, Except.pure]

/-- C9, as the code has it.  A host string without a colon is the host address
as a whole, with an empty port and no error.  A host string of the form
`host:port` (no colon or bracket in either part) gives host address `host` and
port `port`; one of the form `[host]:port` (no bracket in `host`, no colon or
bracket in `port`) gives host address `host` without the brackets and port
`port`: in both the string is cut at its last colon.  Every other host string
that contains a colon, such as a bracketed IPv6 literal with no port, stops
the run with the host error (a panic in debug mode, a return otherwise). -/
theorem hostPort_decomposition (bDebug : Bool) (h : String) :
    (containsChar h ':' = false → hostPort bDebug h = .ok (h, "")) ∧
    (∀ a p, plainHostPort h a p → hostPort bDebug h = .ok (a, p)) ∧
    (∀ a p, bracketedHostPort h a p → hostPort bDebug h = .ok (a, p)) ∧
    (containsChar h ':' = true →
      (∀ a p, ¬ plainHostPort h a p ∧ ¬ bracketedHostPort h a p) →
        hostPort bDebug h =
          .error (if bDebug then .panicked ["Could not parse host:", h]
            else .returned ["Could not parse host:", h])) := by
  refine ⟨?_, ?_, ?_, ?_⟩
  · intro hc
    simp [hostPort, hc]
  · intro a p hf
    exact hostPort_of_split bDebug h a p (SplitHostPort_plain h a p hf)
  · intro a p hf
    exact hostPort_of_split bDebug h a p (SplitHostPort_bracketed h a p hf)
  · intro hc hno
    cases hs : SplitHostPort h with
    | ok r =>
      obtain ⟨a, p⟩ := r
      rcases SplitHostPort_sound h a p hs with hf | hf
      · exact absurd hf (hno a p).1
      · exact absurd hf (hno a p).2
    | error e =>
      cases bDebug <;>
        simp [hostPort, hc, hs, handleError, errOf, bind, Except.bind, throw, throwThe,
          MonadExceptOf.throw]

/-- Witness of C9 (amended): the host strings `host:1234` and `[::1]:80`. -/
theorem hostPort_decomposition_witness :
    plainHostPort "host:1234" "host" "1234" ∧
    hostPort false "host:1234" = .ok ("host", "1234") ∧
    bracketedHostPort "[::1]:80" "::1" "80" ∧
    hostPort false "[::1]:80" = .ok ("::1", "80") :=
  ⟨by decide,
   (hostPort_decomposition false "host:1234").2.1 "host" "1234" (by decide),
   by decide,
   (hostPort_decomposition false "[::1]:80").2.2.1 "::1" "80" (by decide)⟩

/-- Counterexample to C9 as stated: the bracketed IPv6 literal `[::1]` without
a port contains a colon, so it is handed to `net.SplitHostPort`, which reports
a missing port; the run stops with the host error instead of taking `[::1]` as
the host address with an empty port. -/
theorem hostPort_bracketed_literal_fails :
    hostPort false "[::1]" = .error (.returned ["Could not parse host:", "[::1]"]) ∧
    hostPort true "[::1]" = .error (.panicked ["Could not parse host:", "[::1]"]) ∧
    hostPort false "[::1]" ≠ .ok ("[::1]", "") ∧
    program (demoEnv ⟨false, [demoProtocol "" "" []]⟩ (.ok []) none)
        ["gum", "demo://[::1]/path"] =
      ⟨[], .halted (.returned ["Could not parse host:", "[::1]"])⟩ := by
  decide

/-! ## Concrete runs -/

/-- C1 at its failing input: the base file holds the line `K=a=b`, the
fragment is the base64 text of the rows `K,c`; the map handed to
`createOutputFile` still maps `K` to `a,b` and the file written is `K=a=b`. -/
theorem fragment_rows_do_not_overwrite :
    demoBase64 "W1siSyIsImMiXV0=" = .ok "[[\"K\",\"c\"]]" ∧
    buildFileContents (demoEnv ⟨false, [demoProtocol "out.txt" "base.txt" []]⟩
        (.ok ["K=a=b"]) none) false (demoProtocol "out.txt" "base.txt" [])
        demoVariables "W1siSyIsImMiXV0=" = .ok [("K", ["a", "b"])] ∧
    program (demoEnv ⟨false, [demoProtocol "out.txt" "base.txt" []]⟩ (.ok ["K=a=b"]) none)
        ["gum", "demo://myhost/path#W1siSyIsImMiXV0="] =
      ⟨[.created "out.txt", .wrote "out.txt" "K=a=b\n", .started "echo" ["myhost"]],
        .finished⟩ := by
  decide

/-- C2 at its failing input: the fragment is the base64 text of the rows
`K,v1,v2`; the decoding step yields no row at all. -/
theorem fragment_decoding_yields_no_rows :
    demoBase64 "W1siSyIsInYxIiwidjIiXV0=" = .ok "[[\"K\",\"v1\",\"v2\"]]" ∧
    decodeFragment (demoEnv ⟨false, []⟩ (.ok []) none) false "W1siSyIsInYxIiwidjIiXV0=" =
      .ok [] ∧
    decodeFragment (demoEnv ⟨false, []⟩ (.ok []) none) false "W1siSyIsInYxIiwidjIiXV0=" ≠
      .ok [["K", "v1", "v2"]] := by
  decide

/-- C8 at its failing input: outside debug mode `os.Create` fails for the
output file; the run goes on, renders the command array and starts the
command. -/
theorem output_failure_does_not_stop_run :
    createOutputFile (demoEnv ⟨false, []⟩ (.ok []) (some "no such file or directory")) false
        "/nonexistent/out.txt" "=" [] = ([], .ok false) ∧
    program (demoEnv ⟨false, [demoProtocol "/nonexistent/out.txt" "" []]⟩ (.ok [])
        (some "no such file or directory")) ["gum", "demo://myhost/path"] =
      ⟨[.started "echo" ["myhost"]], .finished⟩ := by
  decide

/-- C10 at its failing input: an additional line configured as the empty array
makes the run index an empty list (the run-time panic of line 271), although
`cmd` is non-empty.  The same panic is reached in `loadBaseFile` by an empty
line of the base file when the delimiter is empty. -/
theorem empty_additional_line_panics :
    program (demoEnv ⟨false, [demoProtocol "out.txt" "" [[]]]⟩ (.ok []) none)
        ["gum", "demo://myhost/path"] = ⟨[], .halted .outOfRange⟩ ∧
    loadBaseFile (demoEnv ⟨false, []⟩ (.ok [""]) none) false "base.txt" "" =
      .error .outOfRange := by
  decide

/-! ## The field merge -/

theorem find?_filter_other (m : FileContents) (k K : String) (h : k ≠ K) :
    (m.filter (fun e => decide (e.1 ≠ k))).find? (fun e => decide (e.1 = K)) =
      m.find? (fun e => decide (e.1 = K)) := by
  induction m with
  | nil => rfl
  | cons e rest ih =>
    have h' : ¬ K = k := fun x => h x.symm
    by_cases hk : e.1 = k <;> by_cases hK : e.1 = K <;>
      simp_all [List.filter_cons, List.find?_cons]

theorem mapGet_mapSet (m : FileContents) (k : String) (v : List String) (K : String) :
    mapGet (mapSet m k v) K = if k = K then some v else mapGet m K := by
  unfold mapGet mapSet
  by_cases h : k = K
  · simp [List.find?_cons, h]
  · simp only [List.find?_cons, h, decide_False, if_false]
    rw [find?_filter_other m k K h]

theorem mapSet_keys_nodup (m : FileContents) (k : String) (v : List String)
    (h : (mapKeys m).Nodup) : (mapKeys (mapSet m k v)).Nodup := by
  unfold mapKeys mapSet
  rw [List.map_cons, List.nodup_cons]
  constructor
  · intro hmem
    obtain ⟨e, he, hek⟩ := List.mem_map.mp hmem
    have := (List.mem_filter.mp he).2
    simp at this
    exact this hek
  · exact (List.Nodup.sublist (List.Sublist.map _ (List.filter_sublist m)) h)

theorem setRow_value (m m' : FileContents) (row : List String) (h : setRow m row = .ok m')
    (K : String) : mapGet m' K = (rowValue row K).or (mapGet m K) := by
  cases row with
  | nil => simp [setRow] at h
  | cons k vs =>
    simp only [setRow, Except.ok.injEq] at h
    subst h
    rw [mapGet_mapSet]
    by_cases hk : k = K <;> simp [rowValue, hk]

theorem lastLayerValue_append (prev : Option (List String)) (r1 r2 : List (List String))
    (K : String) :
    lastLayerValue prev (r1 ++ r2) K = lastLayerValue (lastLayerValue prev r1 K) r2 K := by
  simp [lastLayerValue, List.reverse_append, List.findSome?_append, Option.or_assoc]

theorem lastLayerValue_single (prev : Option (List String)) (row : List String) (K : String) :
    lastLayerValue prev [row] K = (rowValue row K).or prev := by
  cases h : rowValue row K <;> simp [lastLayerValue, List.findSome?_cons, h]

theorem lastLayerValue_cons (prev : Option (List String)) (row : List String)
    (rows : List (List String)) (K : String) :
    lastLayerValue prev (row :: rows) K = lastLayerValue ((rowValue row K).or prev) rows K := by
  have h := lastLayerValue_append prev [row] rows K
  rw [lastLayerValue_single] at h
  simpa using h

theorem parseTemplateStringArray_all_ok (env : Env) (bDebug : Bool) (tv : TemplateVariables)
    (ts : List String) (h : ∀ t ∈ ts, (renderOne env tv t).isSome = true) :
    parseTemplateStringArray env bDebug ts tv = .ok (true, renderedLine env tv ts) := by
  cases bDebug with
  | true => exact parseLoop_debug_ok env tv ts true h
  | false =>
    unfold parseTemplateStringArray renderedLine
    rw [parseLoop_quiet]
    have hall : ts.all (fun t => (renderOne env tv t).isSome) = true :=
      List.all_eq_true.mpr h
    simp [hall]

theorem mergeLine_ok (env : Env) (bDebug : Bool) (tv : TemplateVariables) (line : List String)
    (m : FileContents) (hne : line ≠ [])
    (h : ∀ t ∈ line, (renderOne env tv t).isSome = true) :
    ∃ m', mergeLine env bDebug tv line m = .ok m' ∧
      ∀ K, mapGet m' K = (rowValue (renderedLine env tv line) K).or (mapGet m K) := by
  cases line with
  | nil => exact absurd rfl hne
  | cons t rest =>
    have hr := parseTemplateStringArray_all_ok env bDebug tv (t :: rest) h
    refine ⟨mapSet m ((renderOne env tv t).getD t) (renderedLine env tv rest), ?_, ?_⟩
    · simp [mergeLine, hr, renderedLine, setRow]
    · intro K
      exact setRow_value m _ (renderedLine env tv (t :: rest)) (by simp [renderedLine, setRow]) K

theorem mergeOptionalLine_ok (env : Env) (bDebug : Bool) (tv : TemplateVariables)
    (line : List String) (m : FileContents)
    (h : ∀ t ∈ line, (renderOne env tv t).isSome = true) :
    ∃ m', mergeOptionalLine env bDebug tv line m = .ok m' ∧
      ∀ K, mapGet m' K = (rowValue (renderedLine env tv line) K).or (mapGet m K) := by
  cases line with
  | nil => exact ⟨m, by simp [mergeOptionalLine], fun K => by simp [renderedLine, rowValue]⟩
  | cons t rest =>
    obtain ⟨m', h1, h2⟩ := mergeLine_ok env bDebug tv (t :: rest) m (by simp) h
    exact ⟨m', by simp [mergeOptionalLine, h1], h2⟩

theorem mergeAdditional_ok (env : Env) (bDebug : Bool) (tv : TemplateVariables)
    (lines : List (List String)) (m : FileContents)
    (hne : ∀ line ∈ lines, line ≠ [])
    (h : ∀ line ∈ lines, ∀ t ∈ line, (renderOne env tv t).isSome = true) :
    ∃ m', mergeAdditional env bDebug tv lines m = .ok m' ∧
      ∀ K, mapGet m' K =
        lastLayerValue (mapGet m K) (lines.map (renderedLine env tv)) K := by
  induction lines generalizing m with
  | nil => exact ⟨m, rfl, fun K => by simp [lastLayerValue]⟩
  | cons line rest ih =>
    obtain ⟨m1, h1, h2⟩ := mergeLine_ok env bDebug tv line m
      (hne line (List.mem_cons_self line rest)) (h line (List.mem_cons_self line rest))
    obtain ⟨m2, h3, h4⟩ := ih m1 (fun l hl => hne l (List.mem_cons_of_mem line hl))
      (fun l hl => h l (List.mem_cons_of_mem line hl))
    refine ⟨m2, by simp [mergeAdditional, h1, h3], fun K => ?_⟩
    rw [h4 K, h2 K, List.map_cons, lastLayerValue_cons]

theorem decodeFragment_rows (env : Env) (bDebug : Bool) (fragment : String)
    (rows : FragmentData) (h : decodeFragment env bDebug fragment = .ok rows) : rows = [] := by
  unfold decodeFragment handleError at h
  cases hd : env.base64Decode fragment with
  | error e =>
    cases bDebug <;>
      simp [hd, errOf, bind, Except.bind, throw, throwThe, MonadExceptOf.throw] at h
  | ok s =>
    simp [hd, errOf, bind, Except.bind, pure, Except.pure] at h
    exact h

theorem mergeFragment_ok (env : Env) (bDebug : Bool) (fragment : String) (m : FileContents)
    (h : fragment ≠ "" → ∃ s, env.base64Decode fragment = .ok s) :
    mergeFragment env bDebug fragment m = .ok m := by
  unfold mergeFragment
  by_cases hf : fragment = ""
  · simp [hf]
  · obtain ⟨s, hs⟩ := h hf
    simp [hf, decodeFragment, handleError, hs, errOf, bind, Except.bind, pure, Except.pure,
      mergeRows]

theorem splitLoop_ne_nil (sep : List Char) (n : Nat) (s : List Char) :
    splitLoop sep n s ≠ [] := by
  cases n with
  | zero => simp [splitLoop]
  | succ k =>
    unfold splitLoop
    cases Index s sep <;> simp

theorem Split_ne_nil (s sep : String) (h : sep ≠ "") : Split s sep ≠ [] := by
  unfold Split
  simp only [h, if_false, ne_eq, List.map_eq_nil_iff]
  exact splitLoop_ne_nil _ _ _

theorem setRow_keys_nodup (m m' : FileContents) (row : List String)
    (h : setRow m row = .ok m') (hm : (mapKeys m).Nodup) : (mapKeys m').Nodup := by
  cases row with
  | nil => simp [setRow] at h
  | cons k vs =>
    simp only [setRow, Except.ok.injEq] at h
    subst h
    exact mapSet_keys_nodup m k vs hm

theorem scanLoop_keys_nodup (d : String) (lines : List String) (m m' : FileContents)
    (h : scanLoop d lines m = .ok m') (hm : (mapKeys m).Nodup) : (mapKeys m').Nodup := by
  induction lines generalizing m with
  | nil =>
    simp only [scanLoop, Except.ok.injEq] at h
    exact h ▸ hm
  | cons line rest ih =>
    unfold scanLoop at h
    cases hr : setRow m (Split line d) with
    | error e => simp [hr] at h
    | ok m1 =>
      simp only [hr] at h
      exact ih m1 h (setRow_keys_nodup m m1 _ hr hm)

theorem scanLoop_last_line_wins (d : String) (lines : List String) (m m' : FileContents)
    (h : scanLoop d lines m = .ok m') (K : String) :
    mapGet m' K = lastLayerValue (mapGet m K) (lines.map (fun line => Split line d)) K := by
  induction lines generalizing m with
  | nil =>
    simp only [scanLoop, Except.ok.injEq] at h
    subst h
    simp [lastLayerValue]
  | cons line rest ih =>
    unfold scanLoop at h
    cases hr : setRow m (Split line d) with
    | error e => simp [hr] at h
    | ok m1 =>
      simp only [hr] at h
      rw [ih m1 h, setRow_value m m1 _ hr K, List.map_cons, lastLayerValue_cons]

theorem baseContents_keys_nodup (env : Env) (bDebug : Bool) (pConfig : Protocol)
    (m : FileContents) (h : baseContents env bDebug pConfig = .ok m) : (mapKeys m).Nodup := by
  unfold baseContents at h
  split at h
  · unfold loadBaseFile handleError at h
    cases ho : env.openLines pConfig.BaseFile with
    | error e =>
      cases bDebug <;> simp [ho, errOf, bind, Except.bind, pure, Except.pure] at h
    | ok lines =>
      cases hs : scanLoop pConfig.FileDelimeter lines [] with
      | error e => simp [ho, hs, errOf, valOf, bind, Except.bind, pure, Except.pure] at h
      | ok m1 =>
        simp [ho, hs, errOf, valOf, bind, Except.bind, pure, Except.pure] at h
        subst h
        exact scanLoop_keys_nodup _ lines [] m1 hs (by simp [mapKeys])
  · simp only [Except.ok.injEq] at h
    subst h
    simp [mapKeys]

theorem mergeRows_keys_nodup (rows : List (List String)) (m m' : FileContents)
    (h : mergeRows rows m = .ok m') (hm : (mapKeys m).Nodup) : (mapKeys m').Nodup := by
  induction rows generalizing m with
  | nil =>
    simp only [mergeRows, Except.ok.injEq] at h
    exact h ▸ hm
  | cons row rest ih =>
    unfold mergeRows at h
    cases hr : setRow m row with
    | error e => simp [hr] at h
    | ok m1 =>
      simp only [hr] at h
      exact ih m1 h (setRow_keys_nodup m m1 _ hr hm)

theorem mergeFragment_keys_nodup (env : Env) (bDebug : Bool) (fragment : String)
    (m m' : FileContents) (h : mergeFragment env bDebug fragment m = .ok m')
    (hm : (mapKeys m).Nodup) : (mapKeys m').Nodup := by
  unfold mergeFragment at h
  split at h
  · cases hd : decodeFragment env bDebug fragment with
    | error e => simp [hd] at h
    | ok rows =>
      simp only [hd] at h
      exact mergeRows_keys_nodup rows m m' h hm
  · simp only [Except.ok.injEq] at h
    exact h ▸ hm

theorem mergeLine_keys_nodup (env : Env) (bDebug : Bool) (tv : TemplateVariables)
    (line : List String) (m m' : FileContents) (h : mergeLine env bDebug tv line m = .ok m')
    (hm : (mapKeys m).Nodup) : (mapKeys m').Nodup := by
  unfold mergeLine at h
  cases hp : parseTemplateStringArray env bDebug line tv with
  | error e => simp [hp] at h
  | ok r =>
    obtain ⟨b, a⟩ := r
    simp only [hp] at h
    cases hr : setRow m a with
    | error e => simp [hr] at h
    | ok m1 =>
      simp only [hr] at h
      split at h
      · cases h
      · simp only [Except.ok.injEq] at h
        exact h ▸ setRow_keys_nodup m m1 _ hr hm

theorem mergeAdditional_keys_nodup (env : Env) (bDebug : Bool) (tv : TemplateVariables)
    (lines : List (List String)) (m m' : FileContents)
    (h : mergeAdditional env bDebug tv lines m = .ok m') (hm : (mapKeys m).Nodup) :
    (mapKeys m').Nodup := by
  induction lines generalizing m with
  | nil =>
    simp only [mergeAdditional, Except.ok.injEq] at h
    exact h ▸ hm
  | cons line rest ih =>
    unfold mergeAdditional at h
    cases hr : mergeLine env bDebug tv line m with
    | error e => simp [hr] at h
    | ok m1 =>
      simp only [hr] at h
      exact ih m1 h (mergeLine_keys_nodup env bDebug tv line m m1 hr hm)

theorem mergeOptionalLine_keys_nodup (env : Env) (bDebug : Bool) (tv : TemplateVariables)
    (line : List String) (m m' : FileContents)
    (h : mergeOptionalLine env bDebug tv line m = .ok m') (hm : (mapKeys m).Nodup) :
    (mapKeys m').Nodup := by
  unfold mergeOptionalLine at h
  split at h
  · exact mergeLine_keys_nodup env bDebug tv line m m' h hm
  · simp only [Except.ok.injEq] at h
    exact h ▸ hm

/-- Every map the field merge hands to `createOutputFile` has distinct keys. -/
theorem buildFileContents_keys_nodup (env : Env) (bDebug : Bool) (pConfig : Protocol)
    (tvData : TemplateVariables) (fragment : String) (m : FileContents)
    (h : buildFileContents env bDebug pConfig tvData fragment = .ok m) :
    (mapKeys m).Nodup := by
  unfold buildFileContents at h
  cases h0 : baseContents env bDebug pConfig with
  | error e => simp [h0, bind, Except.bind] at h
  | ok m0 =>
    cases h1 : mergeFragment env bDebug fragment m0 with
    | error e => simp [h0, h1, bind, Except.bind] at h
    | ok m1 =>
      cases h2 : mergeAdditional env bDebug tvData pConfig.AdditionalFileLines m1 with
      | error e => simp [h0, h1, h2, bind, Except.bind] at h
      | ok m2 =>
        cases h3 : mergeOptionalLine env bDebug tvData pConfig.HostAddressFileLine m2 with
        | error e => simp [h0, h1, h2, h3, bind, Except.bind] at h
        | ok m3 =>
          simp only [h0, h1, h2, h3, bind, Except.bind] at h
          exact mergeOptionalLine_keys_nodup env bDebug tvData _ m3 m h
            (mergeOptionalLine_keys_nodup env bDebug tvData _ m2 m3 h3
              (mergeAdditional_keys_nodup env bDebug tvData _ m1 m2 h2
                (mergeFragment_keys_nodup env bDebug fragment m0 m1 h1
                  (baseContents_keys_nodup env bDebug pConfig m0 h0))))

theorem Split_eq_nil (s sep : String) (h : Split s sep = []) : s = "" ∧ sep = "" := by
  by_cases hsep : sep = ""
  · refine ⟨?_, hsep⟩
    simp only [Split, hsep, if_true, List.map_eq_nil_iff] at h
    exact String.ext h
  · exact absurd h (Split_ne_nil s sep hsep)

theorem scanLoop_ok (d : String) (lines : List String) (m : FileContents)
    (h : ∀ line ∈ lines, Split line d ≠ []) : ∃ m', scanLoop d lines m = .ok m' := by
  induction lines generalizing m with
  | nil => exact ⟨m, rfl⟩
  | cons line rest ih =>
    have hl := h line (List.mem_cons_self line rest)
    cases hs : Split line d with
    | nil => exact absurd hs hl
    | cons k vs =>
      obtain ⟨m', hm'⟩ := ih (mapSet m k vs) (fun l hl' => h l (List.mem_cons_of_mem line hl'))
      exact ⟨m', by simp [scanLoop, hs, setRow, hm']⟩

/-- The base file block: when the file (if configured) opens and no line of it
splits into the empty list, the block yields a map that gives each key the
values of the last line of the file that starts with the key. -/
theorem baseContents_ok (env : Env) (bDebug : Bool) (pConfig : Protocol) (lines : List String)
    (hopen : pConfig.BaseFile ≠ "" → env.openLines pConfig.BaseFile = .ok lines)
    (hnobase : pConfig.BaseFile = "" → lines = [])
    (hsplit : pConfig.FileDelimeter = "" → ∀ line ∈ lines, line ≠ "") :
    ∃ base, baseContents env bDebug pConfig = .ok base ∧
      ∀ K, mapGet base K =
        lastLayerValue none (lines.map (fun line => Split line pConfig.FileDelimeter)) K := by
  by_cases hb : pConfig.BaseFile = ""
  · refine ⟨[], by simp [baseContents, hb], fun K => ?_⟩
    rw [hnobase hb]
    simp [mapGet, lastLayerValue]
  · have hrows : ∀ line ∈ lines, Split line pConfig.FileDelimeter ≠ [] := by
      intro line hl hs
      obtain ⟨h1, h2⟩ := Split_eq_nil _ _ hs
      exact hsplit h2 line hl h1
    obtain ⟨m', hm'⟩ := scanLoop_ok pConfig.FileDelimeter lines [] hrows
    refine ⟨m', ?_, fun K => ?_⟩
    · simp [baseContents, hb, loadBaseFile, hopen hb, handleError, errOf, valOf, hm', bind,
        Except.bind, pure, Except.pure]
    · rw [scanLoop_last_line_wins _ lines [] m' hm' K]
      simp [mapGet]

theorem buildFileContents_over_base (env : Env) (bDebug : Bool) (pConfig : Protocol)
    (tvData : TemplateVariables) (fragment : String) (base : FileContents)
    (hbase : baseContents env bDebug pConfig = .ok base)
    (hfrag : fragment ≠ "" → ∃ s, env.base64Decode fragment = .ok s)
    (hne : ∀ line ∈ pConfig.AdditionalFileLines, line ≠ [])
    (hrender : ∀ line ∈ pConfig.AdditionalFileLines ++
        [pConfig.HostAddressFileLine, pConfig.UsernameFileLine],
        ∀ t ∈ line, (renderOne env tvData t).isSome = true) :
    ∃ m, buildFileContents env bDebug pConfig tvData fragment = .ok m ∧
      (∀ K, mapGet m K =
        lastLayerValue (mapGet base K)
          ((pConfig.AdditionalFileLines ++
            [pConfig.HostAddressFileLine, pConfig.UsernameFileLine]).map
              (renderedLine env tvData)) K) ∧
      (∀ K vs, renderedLine env tvData pConfig.UsernameFileLine = K :: vs →
        mapGet m K = some vs) := by
  obtain ⟨m2, h2, g2⟩ := mergeAdditional_ok env bDebug tvData pConfig.AdditionalFileLines base
    hne (fun l hl => hrender l (List.mem_append_left _ hl))
  obtain ⟨m3, h3, g3⟩ := mergeOptionalLine_ok env bDebug tvData pConfig.HostAddressFileLine m2
    (hrender _ (List.mem_append_right _ (List.mem_cons_self _ _)))
  obtain ⟨m4, h4, g4⟩ := mergeOptionalLine_ok env bDebug tvData pConfig.UsernameFileLine m3
    (hrender _ (List.mem_append_right _
      (List.mem_cons_of_mem _ (List.mem_cons_self _ _))))
  refine ⟨m4, ?_, ?_, ?_⟩
  · simp [buildFileContents, hbase, mergeFragment_ok env bDebug fragment base hfrag, h2, h3,
      h4, bind, Except.bind]
  · intro K
    rw [g4 K, g3 K, g2 K, List.map_append, lastLayerValue_append, List.map_cons,
      List.map_cons, List.map_nil, lastLayerValue_cons, lastLayerValue_single]
  · intro K vs hu
    rw [g4 K, hu]
    simp [rowValue]

/-- C6, as the code has it: when the base file (if one is configured) opens
and yields `lines`, no line of it splits into the empty list (the delimiter is
not empty, or no line is), the fragment (if any) decodes from base64, no
additional line is the empty array and every template of the additional
lines, the host-address line and the username line renders, the merge
completes, and the map it hands to `createOutputFile` gives each key `K` the
value list written by the last layer defining `K`, in the order base file (its
lines in file order, each split on the delimiter), additional lines in
configuration order, host-address line, username line; in particular a key the
username line renders to has exactly the username line's rendered values. -/
theorem buildFileContents_last_layer_wins (env : Env) (bDebug : Bool) (pConfig : Protocol)
    (tvData : TemplateVariables) (fragment : String) (lines : List String)
    (hopen : pConfig.BaseFile ≠ "" → env.openLines pConfig.BaseFile = .ok lines)
    (hnobase : pConfig.BaseFile = "" → lines = [])
    (hsplit : pConfig.FileDelimeter = "" → ∀ line ∈ lines, line ≠ "")
    (hfrag : fragment ≠ "" → ∃ s, env.base64Decode fragment = .ok s)
    (hne : ∀ line ∈ pConfig.AdditionalFileLines, line ≠ [])
    (hrender : ∀ line ∈ pConfig.AdditionalFileLines ++
        [pConfig.HostAddressFileLine, pConfig.UsernameFileLine],
        ∀ t ∈ line, (renderOne env tvData t).isSome = true) :
    ∃ m, buildFileContents env bDebug pConfig tvData fragment = .ok m ∧
      (∀ K, mapGet m K =
        lastLayerValue
          (lastLayerValue none
            (lines.map (fun line => Split line pConfig.FileDelimeter)) K)
          ((pConfig.AdditionalFileLines ++
            [pConfig.HostAddressFileLine, pConfig.UsernameFileLine]).map
              (renderedLine env tvData)) K) ∧
      (∀ K vs, renderedLine env tvData pConfig.UsernameFileLine = K :: vs →
        mapGet m K = some vs) := by
  obtain ⟨base, hbase, gbase⟩ := baseContents_ok env bDebug pConfig lines hopen hnobase hsplit
  obtain ⟨m, h1, h2, h3⟩ := buildFileContents_over_base env bDebug pConfig tvData fragment
    base hbase hfrag hne hrender
  exact ⟨m, h1, fun K => by rw [h2 K, gbase K], h3⟩

/-- Witness of C6 (amended): the base file defines `K`, `H` and `B`, an
additional line renders to `K,c`, the host-address line to `K,myhost` and the
username line to `H,u`: the host-address line wins for `K`, the username line
for `H`, and `B` keeps the value of the base file. -/
theorem buildFileContents_last_layer_wins_witness :
    ∃ m, buildFileContents (demoEnv ⟨false, []⟩ (.ok ["K=a=b", "H=x", "B=1"]) none) false
        ⟨"demo", ["echo"], "out.txt", "base.txt", "=",
          ["K", "\x7b\x7b.HostAddress\x7d\x7d"], ["H", "u"], [["K", "c"]]⟩
        demoVariables "" = .ok m ∧
      mapGet m "K" = some ["myhost"] ∧ mapGet m "H" = some ["u"] ∧
      mapGet m "B" = some ["1"] ∧ mapGet m "Z" = none := by
  obtain ⟨m, h1, h2, h3⟩ := buildFileContents_last_layer_wins
    (demoEnv ⟨false, []⟩ (.ok ["K=a=b", "H=x", "B=1"]) none) false
    ⟨"demo", ["echo"], "out.txt", "base.txt", "=",
      ["K", "\x7b\x7b.HostAddress\x7d\x7d"], ["H", "u"], [["K", "c"]]⟩
    demoVariables "" ["K=a=b", "H=x", "B=1"]
    (fun _ => rfl) (fun h => absurd h (by decide)) (fun h => absurd h (by decide))
    (fun h => absurd rfl h) (by decide) (by decide)
  refine ⟨m, h1, ?_, h3 "H" ["u"] (by decide), ?_, ?_⟩
  · rw [h2 "K"]
    decide
  · rw [h2 "B"]
    decide
  · rw [h2 "Z"]
    decide

/-- Counterexample to C6 as stated: every line template renders and the
username line renders to key `K` with the value `u`, yet no map is built and
nothing is written.  In the first run the base file cannot be opened and the
run returns after `loadBaseFile`; in the second an additional line is the
empty array and the run panics on its index (see C10). -/
theorem buildFileContents_not_always_built :
    (∀ t ∈ ["K", "u"],
      (renderOne (demoEnv ⟨false, []⟩ (.error "no such file") none) demoVariables t).isSome
        = true) ∧
    buildFileContents (demoEnv ⟨false, []⟩ (.error "no such file") none) false
        ⟨"demo", ["echo"], "out.txt", "base.txt", "=", [], ["K", "u"], []⟩
        demoVariables "" = .error (.returned ["Exiting early"]) ∧
    program (demoEnv ⟨false, [⟨"demo", ["echo"], "out.txt", "base.txt", "=", [], ["K", "u"],
        []⟩]⟩ (.error "no such file") none) ["gum", "demo://myhost/path"] =
      ⟨[], .halted (.returned ["Exiting early"])⟩ ∧
    buildFileContents (demoEnv ⟨false, []⟩ (.ok []) none) false
        ⟨"demo", ["echo"], "out.txt", "", "=", [], ["K", "u"], [[]]⟩
        demoVariables "" = .error .outOfRange := by
  decide

/-! ## The output file -/

theorem joinLoop_eq (d : String) (vs : List String) (acc : String) :
    vs.foldl (fun b s => b ++ d ++ s) acc = acc ++ concatAll (vs.map (fun v => d ++ v)) := by
  induction vs generalizing acc with
  | nil => simp [concatAll]
  | cons v rest ih =>
    rw [List.foldl_cons, ih]
    simp only [List.map_cons, concatAll, String.append_assoc]

theorem Join_cons (d k : String) (vs : List String) :
    Join (k :: vs) d = k ++ concatAll (vs.map (fun v => d ++ v)) := by
  simp [Join, joinLoop_eq]

theorem outputLoop_eq (d : String) (visited : FileContents) (acc : String) :
    visited.foldl
        (fun sFileContents e => sFileContents ++ Join (e.1 :: e.2) d ++ "\n") acc =
      acc ++ concatAll (visited.map (fun e => outputLine d e.1 e.2)) := by
  induction visited generalizing acc with
  | nil => simp [concatAll]
  | cons e rest ih =>
    rw [List.foldl_cons, ih, Join_cons]
    simp only [List.map_cons, concatAll, outputLine, String.append_assoc]

theorem outputText_eq (d : String) (visited : FileContents) :
    outputText d visited = concatAll (visited.map (fun e => outputLine d e.1 e.2)) := by
  simp [outputText, outputLoop_eq]

theorem mapGet_of_mem (m : FileContents) (h : (mapKeys m).Nodup) (e : String × List String)
    (he : e ∈ m) : mapGet m e.1 = some e.2 := by
  induction m with
  | nil => simp at he
  | cons x rest ih =>
    simp only [mapKeys, List.map_cons, List.nodup_cons] at h
    rcases List.mem_cons.mp he with hx | hx
    · subst hx
      simp [mapGet, List.find?_cons]
    · have hne : ¬ x.1 = e.1 := fun hxe => h.1 (hxe ▸ List.mem_map_of_mem (fun e => e.1) hx)
      have := ih h.2 hx
      simpa [mapGet, List.find?_cons, hne] using this

/-- C7: when the file can be created and written, the text `createOutputFile`
writes for a map `m` with delimiter `d` is the concatenation, over some
ordering of the keys of `m` in which each key occurs exactly once, of one line
per key: the key followed by its values, all joined with `d`, and a newline.
The ordering is the one in which `range` visits the map. -/
theorem createOutputFile_text (env : Env) (bDebug : Bool) (path d : String)
    (m : FileContents)
    (hkeys : (mapKeys m).Nodup)
    (hrange : (env.rangeOrder m).Perm m)
    (hcreate : env.createFile path = none)
    (hwrite : ∀ text, env.writeString path text = none) :
    ∃ ks : List String, ks.Perm (mapKeys m) ∧ ks.Nodup ∧
      createOutputFile env bDebug path d m =
        ([.created path,
          .wrote path (concatAll (ks.map (fun k => outputLine d k ((mapGet m k).getD []))))],
         .ok true) ∧
      ∀ k vs, outputLine d k vs = Join (k :: vs) d ++ "\n" := by
  refine ⟨mapKeys (env.rangeOrder m), hrange.map _, (hrange.map _).nodup_iff.mpr hkeys, ?_, ?_⟩
  · have hlines : (env.rangeOrder m).map (fun e => outputLine d e.1 e.2) =
        (mapKeys (env.rangeOrder m)).map (fun k => outputLine d k ((mapGet m k).getD [])) := by
      unfold mapKeys
      rw [List.map_map]
      apply List.map_congr_left
      intro e he
      have := mapGet_of_mem m hkeys e (hrange.mem_iff.mp he)
      simp [this]
    simp [createOutputFile, handleError, hcreate, hwrite, outputText_eq, hlines]
  · intro k vs
    simp [outputLine, Join_cons]

/-- Witness of C7: a map of two keys, visited in stored order. -/
theorem createOutputFile_text_witness :
    ∃ ks : List String, ks.Perm (mapKeys [("K", ["a", "b"]), ("H", [])]) ∧ ks.Nodup ∧
      createOutputFile (demoEnv ⟨false, []⟩ (.ok []) none) false "out.txt" "="
          [("K", ["a", "b"]), ("H", [])] =
        ([.created "out.txt",
          .wrote "out.txt" (concatAll (ks.map (fun k =>
            outputLine "=" k ((mapGet [("K", ["a", "b"]), ("H", [])] k).getD []))))],
         .ok true) ∧
      ∀ k vs, outputLine "=" k vs = Join (k :: vs) "=" ++ "\n" :=
  createOutputFile_text (demoEnv ⟨false, []⟩ (.ok []) none) false "out.txt" "="
    [("K", ["a", "b"]), ("H", [])] (by decide) (List.Perm.refl _) rfl (fun _ => rfl)

end Gum
